import Mathlib

set_option maxRecDepth 8192

/-!
Verification development for the playwright-step-decorator repository.

The source is a TypeScript module exporting a method decorator `step` that
wraps an async method into a reported test step.  Strings are modelled as
`List Char` (named `JSStr`), JavaScript runtime values as the inductive
`JSValue` (numbers are modelled as integers; floating point behaviour is
not needed by any property proved here), and the fallible formatting
pipeline returns `Except StepError`.  Every definition is translated from
the source file src/playwright-step-decorator.ts of the repository, except
the few definitions whose doc comment starts with "Modelled from the spec".
-/

namespace StepDecorator

/-- JavaScript strings are modelled as lists of characters. -/
abbrev JSStr := List Char

/-- The left curly brace character. -/
def lbrace : Char := Char.ofNat 123

/-- The right curly brace character. -/
def rbrace : Char := Char.ofNat 125

/-- The dollar character, special in JavaScript replacement strings. -/
def dollarChar : Char := Char.ofNat 36

/-- The backquote character, used by the replacement pattern for the part before a match. -/
def bqChar : Char := Char.ofNat 96

/-- The single-quote character, used by the replacement pattern for the part after a match. -/
def quChar : Char := Char.ofNat 39

/-- The line-feed character. -/
def nlChar : Char := Char.ofNat 10

/-- The carriage-return character. -/
def crChar : Char := Char.ofNat 13

/-- The Unicode line separator, a JavaScript line terminator. -/
def lsChar : Char := Char.ofNat 8232

/-- The Unicode paragraph separator, a JavaScript line terminator. -/
def psChar : Char := Char.ofNat 8233

/-- JavaScript regular-expression line terminators: the dot of a regex does not match these. -/
def isLineTerm (c : Char) : Bool :=
  c == nlChar || c == crChar || c == lsChar || c == psChar

/-- Whitespace recognised by JavaScript trim and by the regex class backslash-s
(the common members; exotic Unicode spaces are not needed by any input considered). -/
def isJsWhitespace (c : Char) : Bool :=
  c == ' ' || c == Char.ofNat 9 || c == nlChar || c == crChar ||
  c == Char.ofNat 11 || c == Char.ofNat 12 || c == Char.ofNat 160 ||
  c == lsChar || c == psChar || c == Char.ofNat 65279

/-- Index of the first occurrence of `pat` in `s`, as JavaScript indexOf. -/
def indexOfSub (pat : JSStr) : JSStr → Option Nat
  | [] => if pat = [] then some 0 else none
  | c :: t => if pat.isPrefixOf (c :: t) then some 0 else (indexOfSub pat t).map (· + 1)

/-- Whether `pat` occurs as a contiguous substring of `s` (JavaScript includes). -/
def containsSub (pat s : JSStr) : Bool := (indexOfSub pat s).isSome

/-- JavaScript String.prototype.split with a single-character separator. -/
def splitOnChar (sep : Char) : JSStr → List JSStr
  | [] => [[]]
  | c :: t =>
    let r := splitOnChar sep t
    if c = sep then [] :: r
    else
      match r with
      | h :: t2 => (c :: h) :: t2
      | [] => [[c]]

/-- JavaScript Array.prototype.join with a single-character separator. -/
def joinWithChar (sep : Char) (parts : List JSStr) : JSStr :=
  List.intercalate [sep] parts

/-- JavaScript String.prototype.trim. -/
def jsTrim (s : JSStr) : JSStr :=
  ((s.dropWhile isJsWhitespace).reverse.dropWhile isJsWhitespace).reverse

/-- Numeric value of a nonempty decimal digit string. -/
def digitsToNat (ds : JSStr) : Nat :=
  ds.foldl (fun acc c => acc * 10 + (c.toNat - 48)) 0

/-- Maximal decimal digit prefix of a string, as an optional number (none when no digit). -/
def parseDigits (s : JSStr) : Option Nat :=
  let ds := s.takeWhile Char.isDigit
  if ds = [] then none else some (digitsToNat ds)

/-- JavaScript parseInt with radix 10: skip leading whitespace, optional sign,
then the maximal digit prefix; `none` models NaN. -/
def jsParseInt (s : JSStr) : Option Int :=
  let t := s.dropWhile isJsWhitespace
  match t with
  | [] => none
  | c :: r =>
    if c = '-' then (parseDigits r).map (fun n => -(n : Int))
    else if c = '+' then (parseDigits r).map (fun n => (n : Int))
    else (parseDigits t).map (fun n => (n : Int))

/-- Decimal rendering of a natural number, as a character list. -/
def natStr (n : Nat) : JSStr := (Nat.repr n).toList

/-- Decimal rendering of an integer, as JavaScript String applied to an integral number. -/
def intStr (i : Int) : JSStr := (Int.repr i).toList

/-- Rendering of a parseInt result: `none` is NaN. -/
def intOptStr : Option Int → JSStr
  | none => "NaN".toList
  | some i => intStr i

/-- JavaScript runtime values, as far as the decorator inspects them.
Numbers are modelled as integers; property lookup only sees own properties
of plain objects (prototype-inherited properties are not modelled, no
property of this repository depends on them). -/
inductive JSValue where
  | undefined
  | null
  | bool (b : Bool)
  | num (n : Int)
  | str (s : JSStr)
  | obj (fields : List (JSStr × JSValue))

/-- JavaScript truthiness of a value. -/
def jsTruthy : JSValue → Bool
  | .undefined => false
  | .null => false
  | .bool b => b
  | .num n => n != 0
  | .str s => !s.isEmpty
  | .obj _ => true

/-- Whether the typeof operator yields the word object (true for null as well). -/
def typeofIsObject : JSValue → Bool
  | .null => true
  | .obj _ => true
  | _ => false

/-- Lookup of an own property in an object field list (first binding wins). -/
def lookupField (k : JSStr) : List (JSStr × JSValue) → Option JSValue
  | [] => none
  | (k2, v) :: t => if k2 = k then some v else lookupField k t

/-- The JavaScript in operator restricted to plain objects. -/
def hasProp (k : JSStr) : JSValue → Bool
  | .obj fields => (lookupField k fields).isSome
  | _ => false

/-- Property read on a plain object; undefined elsewhere. -/
def getProp (k : JSStr) : JSValue → JSValue
  | .obj fields => (lookupField k fields).getD .undefined
  | _ => .undefined

/-- JavaScript default string coercion, String applied to a value. -/
def jsString : JSValue → JSStr
  | .undefined => "undefined".toList
  | .null => "null".toList
  | .bool true => "true".toList
  | .bool false => "false".toList
  | .num n => intStr n
  | .str s => s
  | .obj _ => "[object Object]".toList

/-- JavaScript array read at an indexOf result: negative or out-of-range reads give undefined. -/
def jsArrGet (args : List JSValue) (i : Int) : JSValue :=
  if i < 0 then .undefined else args.getD i.toNat .undefined

/-- JavaScript Array.prototype.indexOf on a list of strings: first index, or minus one. -/
def jsIndexOf (x : JSStr) : List JSStr → Int
  | [] => -1
  | y :: t =>
    if y = x then 0
    else
      let r := jsIndexOf x t
      if r < 0 then -1 else r + 1

/-- GetSubstitution of the JavaScript replace algorithm for a string pattern:
dollar-dollar is a literal dollar, dollar-ampersand inserts the matched text,
dollar-backquote the part before the match, dollar-quote the part after it;
every other character is literal (a string pattern has no capture groups). -/
def getSubstitution (matched before after : JSStr) : JSStr → JSStr
  | [] => []
  | c :: rest =>
    if c = dollarChar then
      match rest with
      | [] => [c]
      | d :: rest2 =>
        if d = dollarChar then dollarChar :: getSubstitution matched before after rest2
        else if d = '&' then matched ++ getSubstitution matched before after rest2
        else if d = bqChar then before ++ getSubstitution matched before after rest2
        else if d = quChar then after ++ getSubstitution matched before after rest2
        else c :: d :: getSubstitution matched before after rest2
    else c :: getSubstitution matched before after rest

/-- JavaScript String.prototype.replace with a string pattern: replace the first
occurrence only, applying GetSubstitution to the replacement string. -/
def jsReplaceFirst (s pat repl : JSStr) : JSStr :=
  match indexOfSub pat s with
  | none => s
  | some i =>
    let before := s.take i
    let after := s.drop (i + pat.length)
    before ++ getSubstitution pat before after repl ++ after

/-- Lazy scan of the inner text of a named placeholder, mirroring the
regular expression of getPlaceholders: after an opening double curly brace,
the dot-star-lazy group consumes the shortest run of non-line-terminator
characters followed by a closing double curly brace.  Returns the captured
inner text and the number of characters consumed after the opening braces
(inner length plus the two closing braces), or none when the position does
not match. -/
def curlyInner (t : JSStr) (acc : JSStr) : Option (JSStr × Nat) :=
  match t with
  | [] => none
  | c :: rest =>
    if c = rbrace then
      match rest with
      | d :: _ =>
        if d = rbrace then some (acc.reverse, 2)
        else (curlyInner rest (c :: acc)).map (fun p => (p.1, p.2 + 1))
      | [] => none
    else if isLineTerm c then none
    else (curlyInner rest (c :: acc)).map (fun p => (p.1, p.2 + 1))

/-- Scanning loop of matchAll for the named-placeholder pattern: leftmost
matches, scanning resumes after each match, captured inner texts in order.
The fuel argument only bounds the number of iterations; every iteration
consumes at least one character, so the fuel of curlyScanAux below never runs
out (the lemma curlyScanGo_fuel proves the result is fuel-independent). -/
def curlyScanGo : Nat → JSStr → List JSStr
  | 0, _ => []
  | _ + 1, [] => []
  | _ + 1, [_] => []
  | fuel + 1, c1 :: c2 :: t =>
    if c1 = lbrace ∧ c2 = lbrace then
      match curlyInner t [] with
      | some (inner, n) => inner :: curlyScanGo fuel (t.drop n)
      | none => curlyScanGo fuel (c2 :: t)
    else curlyScanGo fuel (c2 :: t)

/-- matchAll for the named-placeholder pattern of getPlaceholders. -/
def curlyScanAux (s : JSStr) : List JSStr := curlyScanGo (s.length + 1) s

/-- Match of the positional-placeholder pattern at a position just after an
opening double square bracket: a nonempty maximal digit run followed by a
closing double square bracket.  Returns the digit text and the number of
characters consumed from `t`. -/
def squareAt (t : JSStr) : Option (JSStr × Nat) :=
  let ds := t.takeWhile Char.isDigit
  if ds.isEmpty then none
  else
    match t.drop ds.length with
    | c1 :: c2 :: _ => if c1 = ']' ∧ c2 = ']' then some (ds, ds.length + 2) else none
    | _ => none

/-- Scanning loop of matchAll for the positional-placeholder pattern, with
the same fuel discipline as curlyScanGo. -/
def squareScanGo : Nat → JSStr → List JSStr
  | 0, _ => []
  | _ + 1, [] => []
  | _ + 1, [_] => []
  | fuel + 1, c1 :: c2 :: t =>
    if c1 = '[' ∧ c2 = '[' then
      match squareAt t with
      | some (ds, n) => ds :: squareScanGo fuel (t.drop n)
      | none => squareScanGo fuel (c2 :: t)
    else squareScanGo fuel (c2 :: t)

/-- matchAll for the positional-placeholder pattern of getPlaceholders:
captured digit strings in order of the leftmost non-overlapping matches. -/
def squareScanAux (s : JSStr) : List JSStr := squareScanGo (s.length + 1) s

/-- Literal text of a named placeholder: inner text wrapped in double curly braces. -/
def wrapCurly (p : JSStr) : JSStr := lbrace :: lbrace :: (p ++ [rbrace, rbrace])

/-- Literal text of a positional placeholder: digits wrapped in double square brackets. -/
def wrapSquare (d : JSStr) : JSStr := '[' :: '[' :: (d ++ [']', ']'])

/-- getPlaceholders of the source: named placeholder inner texts first, then
positional placeholders re-wrapped in their double square brackets. -/
def getPlaceholders (description : JSStr) : List JSStr :=
  curlyScanAux description ++ (squareScanAux description).map wrapSquare

/-- The opening double square bracket, used by startsWith checks of the source. -/
def sqOpen : JSStr := ['[', '[']

/-- The closing double square bracket, used by endsWith checks of the source. -/
def sqClose : JSStr := [']', ']']

/-- Text after the first occurrence of a character, none when absent. -/
def afterFirst (c : Char) : JSStr → Option JSStr
  | [] => none
  | x :: t => if x = c then some t else afterFirst c t

/-- Capture of the parameter-list regular expression of
extractFunctionParamNames: the lazy any-prefix puts the match at the first
opening parenthesis, the non-closing-parenthesis star then reaches exactly
the first closing parenthesis after it; none when the function text has no
parenthesised segment. -/
def firstParenInner (s : JSStr) : Option JSStr :=
  match afterFirst '(' s with
  | none => none
  | some rest => if rest.contains ')' then some (rest.takeWhile (fun c => c != ')')) else none

/-- extractFunctionParamNames of the source: capture between the first
opening parenthesis and the first closing parenthesis after it, split on
every comma, trimmed, empty entries removed. -/
def extractFunctionParamNames (fnStr : JSStr) : List JSStr :=
  match firstParenInner fnStr with
  | none => []
  | some inner => ((splitOnChar ',' inner).map jsTrim).filter (fun p => !p.isEmpty)

/-- Root identifier of a named placeholder: the part before the first dot. -/
def rootOf (ph : JSStr) : JSStr := (splitOnChar '.' ph).headD []

/-- findMissingParams of the source: root identifiers of the named
placeholders that are absent from the parameter names, kept in placeholder
order, with repetitions. -/
def findMissingParams (placeholders paramNames : List JSStr) : List JSStr :=
  ((placeholders.filter (fun ph => !sqOpen.isPrefixOf ph)).map rootOf).filter
    (fun p => !paramNames.contains p)

/-- Errors thrown by the wrapper before the step reporter is invoked. -/
inductive StepError where
  | missingParams (names : List JSStr) (methodName : JSStr)
  | indexOutOfBounds (index : Option Int) (argCount : Nat) (methodName : JSStr)
  | missingProperty (placeholder segment root methodName : JSStr)
deriving DecidableEq

/-- A string wrapped in single quotes, as the template literals of the source messages. -/
def quoted (s : JSStr) : JSStr := quChar :: (s ++ [quChar])

/-- The exact message strings of the source errors. -/
def errorMessage : StepError → JSStr
  | .missingParams names mn =>
    "Missing function parameters (".toList ++ List.intercalate ", ".toList names ++
    ") in method ".toList ++ quoted mn ++
    ". Please check your @step decorator placeholders.".toList
  | .indexOutOfBounds idx n mn =>
    "Parameter index ".toList ++ quoted (intOptStr idx) ++
    " is out of bounds in method ".toList ++ quoted mn ++
    ". This method received ".toList ++ natStr n ++
    " argument(s), but the @step decorator references index ".toList ++ intOptStr idx ++
    ". Please check your @step decorator placeholders.".toList
  | .missingProperty ph seg root mn =>
    "Invalid @step placeholder ".toList ++ quoted (wrapCurly ph) ++
    " in method ".toList ++ quoted mn ++
    ": Property ".toList ++ quoted seg ++
    " does not exist on parameter ".toList ++ quoted root ++
    ". Please check your @step decorator placeholders.".toList

/-- JavaScript slice with arguments two and minus two. -/
def jsSlice2m2 (l : JSStr) : JSStr := (l.take (l.length - 2)).drop 2

/-- Dotted-path walk of the named-placeholder branch of formatDescription:
each further segment must be an own property of a truthy object value. -/
def walkPath (methodName ph root : JSStr) : List JSStr → JSValue → Except StepError JSValue
  | [], v => .ok v
  | seg :: rest, v =>
    if jsTruthy v && typeofIsObject v && hasProp seg v then
      walkPath methodName ph root rest (getProp seg v)
    else .error (.missingProperty ph seg root methodName)

/-- One iteration of the formatDescription loop, computing the literal text
to replace and its replacement string, or the error thrown there. -/
def resolveStep (methodName : JSStr) (paramNames : List JSStr) (args : List JSValue)
    (ph : JSStr) : Except StepError (JSStr × JSStr) :=
  if sqOpen.isPrefixOf ph && sqClose.isSuffixOf ph then
    match jsParseInt (jsSlice2m2 ph) with
    | none => .error (.indexOutOfBounds none args.length methodName)
    | some i =>
      if i < 0 ∨ (args.length : Int) ≤ i then
        .error (.indexOutOfBounds (some i) args.length methodName)
      else .ok (wrapSquare (intStr i), jsString (jsArrGet args i))
  else
    let parts := splitOnChar '.' ph
    let root := parts.headD []
    let paramIndex := jsIndexOf root paramNames
    let value0 := jsArrGet args paramIndex
    match walkPath methodName ph root (parts.drop 1) value0 with
    | .error e => .error e
    | .ok v => .ok (wrapCurly ph, jsString v)

/-- The loop of formatDescription: placeholders in order, each performing one
first-occurrence text replacement on the running result; the first error stops
the loop and is thrown. -/
def formatLoop (methodName : JSStr) (paramNames : List JSStr) (args : List JSValue) :
    List JSStr → JSStr → Except StepError JSStr
  | [], result => .ok result
  | ph :: rest, result =>
    match resolveStep methodName paramNames args ph with
    | .error e => .error e
    | .ok (pat, repl) => formatLoop methodName paramNames args rest (jsReplaceFirst result pat repl)

/-- formatDescription of the source. -/
def formatDescription (methodName description : JSStr) (placeholders paramNames : List JSStr)
    (args : List JSValue) : Except StepError JSStr :=
  formatLoop methodName paramNames args placeholders description

/-- The description branch of replacementMethod, which is the format contract
of the specification: extract placeholders, throw on missing parameters, then
substitute.  The thrown error is modelled as the error of the Except result. -/
def format (methodName description : JSStr) (paramNames : List JSStr)
    (args : List JSValue) : Except StepError JSStr :=
  let placeholders := getPlaceholders description
  let missingParams := findMissingParams placeholders paramNames
  if missingParams.length > 0 then .error (.missingParams missingParams methodName)
  else formatDescription methodName description placeholders paramNames args

/-- A structured source location, as captureCallSiteLocation returns it. -/
structure SourceLocation where
  file : JSStr
  line : Nat
  column : Nat
deriving DecidableEq

/-- Split of a file-line-column text at one candidate colon position: the text
before position `p` is the file (nonempty), at `p` a colon, then a nonempty
maximal digit run, a colon, and digits to the end. -/
def flcAt (M : JSStr) (p : Nat) : Option (JSStr × Nat × Nat) :=
  if p = 0 then none
  else
    match M.drop p with
    | c :: r2 =>
      if c = ':' then
        let d1 := r2.takeWhile Char.isDigit
        match r2.drop d1.length with
        | c2 :: d2 =>
          if c2 = ':' ∧ !d1.isEmpty ∧ !d2.isEmpty ∧ d2.all Char.isDigit then
            some (M.take p, digitsToNat d1, digitsToNat d2)
          else none
        | [] => none
      else none
    | [] => none

/-- Backtracking of the greedy dot-plus group: the rightmost colon position
that yields a valid file-line-column split wins. -/
def flcScan (M : JSStr) : Nat → Option (JSStr × Nat × Nat)
  | 0 => none
  | p + 1 =>
    match flcAt M (p + 1) with
    | some r => some r
    | none => flcScan M p

/-- Parse of a dot-plus colon digits colon digits end-anchored tail. -/
def parseFLC (M : JSStr) : Option (JSStr × Nat × Nat) := flcScan M (M.length - 1)

/-- The first stack-line pattern of captureCallSiteLocation: an opening
parenthesis, then file colon line colon column, then a closing parenthesis as
the last character of the line.  The leftmost opening parenthesis admitting a
valid tail wins. -/
def parenScan : JSStr → Option (JSStr × Nat × Nat)
  | [] => none
  | c :: t =>
    if c = '(' then
      match parseFLC t with
      | some r => some r
      | none => parenScan t
    else parenScan t

/-- Match of the parenthesised location pattern against a whole line. -/
def matchParenLoc (line : JSStr) : Option (JSStr × Nat × Nat) :=
  match line.getLast? with
  | some c => if c = ')' then parenScan line.dropLast else none
  | none => none

/-- Backtracking of the greedy whitespace-plus group after the letters a t:
try the maximal whitespace run first, then shorter nonempty runs. -/
def atTryWs (M : JSStr) : Nat → Option (JSStr × Nat × Nat)
  | 0 => none
  | k + 1 =>
    match parseFLC (M.drop (k + 1)) with
    | some r => some r
    | none => atTryWs M k

/-- The second stack-line pattern of captureCallSiteLocation: the letters a t,
whitespace, then file colon line colon column anchored at the end of the line.
The leftmost occurrence of the letters admitting a match wins. -/
def atScan : JSStr → Option (JSStr × Nat × Nat)
  | [] => none
  | c :: t =>
    if c = 'a' then
      match t with
      | d :: t2 =>
        if d = 't' then
          match atTryWs t2 (t2.takeWhile isJsWhitespace).length with
          | some r => some r
          | none => atScan t
        else atScan t
      | [] => none
    else atScan t

/-- The line match of the loop of captureCallSiteLocation: the parenthesised
pattern first, the plain at pattern otherwise. -/
def parseStackLine (line : JSStr) : Option (JSStr × Nat × Nat) :=
  match matchParenLoc line with
  | some r => some r
  | none => atScan line

/-- The ignored path fragments of captureCallSiteLocation. -/
def ignoredFragments : List JSStr :=
  ["node_modules".toList,
   "node:internal".toList,
   "/playwright-step-decorator.ts".toList,
   "\\playwright-step-decorator.ts".toList,
   "/src/playwright-step-decorator".toList,
   "\\src\\playwright-step-decorator".toList,
   "/dist/playwright-step-decorator".toList,
   "\\dist\\playwright-step-decorator".toList]

/-- Whether a file path contains one of the ignored fragments. -/
def isIgnoredFile (file : JSStr) : Bool :=
  ignoredFragments.any (fun fragment => containsSub fragment file)

/-- One iteration of the frame loop of captureCallSiteLocation: a frame
yields a location when its line parses and its file is not ignored; parse
failures and ignored files make the loop continue. -/
def frameLocation (line : JSStr) : Option SourceLocation :=
  match parseStackLine line with
  | some (file, lineNum, col) =>
    if isIgnoredFile file then none else some ⟨file, lineNum, col⟩
  | none => none

/-- captureCallSiteLocation of the source: split the stack text on line
feeds, skip the three leading frames of the capture call chain, return the
first frame that parses and is not ignored, none when the trace is exhausted
or the stack is absent. -/
def captureCallSiteLocation (stack : Option JSStr) : Option SourceLocation :=
  match stack with
  | none => none
  | some st => ((splitOnChar nlChar st).drop 3).findSome? frameLocation

/-- The opaque step handle the reporter passes to the step body. -/
structure TestStepInfo where
  id : Nat
deriving DecidableEq

/-- The slice of instance state the decorator touches: the step symbol slot. -/
structure InstState where
  stepSlot : Option TestStepInfo
deriving DecidableEq

/-- The message of the error thrown by getStepInfo outside a wrapped call. -/
def noStepContextMsg : JSStr :=
  "No Playwright step context found. Make sure this method is decorated with @step.".toList

/-- getStepInfo of the source.  The stored value is always the step object,
which is truthy; an absent slot reads as undefined, which is falsy. -/
def getStepInfo (instance_ : InstState) : Except JSStr TestStepInfo :=
  match instance_.stepSlot with
  | some s => .ok s
  | none => .error noStepContextMsg

/-- A value thrown by the wrapped function: an Error instance with a message,
an optional stack text and an identity tag, or any other thrown value. -/
inductive Thrown where
  | errObj (message : JSStr) (stack : Option JSStr) (tag : Nat)
  | other (v : JSValue)

/-- The fragment filterDecoratorFrames removes lines by. -/
def decoratorFragment : JSStr := "playwright-step-decorator".toList

/-- filterDecoratorFrames of the source: drop every stack line containing the
decorator fragment and join the rest with line feeds. -/
def filterDecoratorFrames (stack : JSStr) : JSStr :=
  joinWithChar nlChar
    ((splitOnChar nlChar stack).filter (fun line => !containsSub decoratorFragment line))

/-- The catch clause of the step body: when the thrown value is an Error
instance with a truthy stack, the stack is rewritten by
filterDecoratorFrames; everything else is rethrown untouched. -/
def filterThrown : Thrown → Thrown
  | .errObj m (some stk) tag =>
    if stk.isEmpty then .errObj m (some stk) tag
    else .errObj m (some (filterDecoratorFrames stk)) tag
  | t => t

/-- Message of a thrown Error instance. -/
def thrownMessage : Thrown → Option JSStr
  | .errObj m _ _ => some m
  | .other _ => none

/-- Stack of a thrown Error instance. -/
def thrownStack : Thrown → Option (Option JSStr)
  | .errObj _ s _ => some s
  | .other _ => none

/-- Identity tag of a thrown Error instance. -/
def thrownTag : Thrown → Option Nat
  | .errObj _ _ g => some g
  | .other _ => none

/-- Whether the thrown value is an Error instance. -/
def isErrorThrown : Thrown → Bool
  | .errObj _ _ _ => true
  | .other _ => false

/-- What the wrapper hands to the step reporter. -/
structure StepReport where
  description : JSStr
  location : Option SourceLocation

/-- The default description of replacementMethod. -/
def defaultMethodName (className ctxName : JSStr) : JSStr := className ++ '.' :: ctxName

/-- The description computation of replacementMethod: the default class-dot-method
label, or, for a truthy explicit description, parameter extraction followed by
the format pipeline, whose errors are thrown. -/
def computeDescription (className ctxName : JSStr) (description : Option JSStr)
    (targetText : JSStr) (args : List JSValue) : Except StepError JSStr :=
  let methodName := defaultMethodName className ctxName
  match description with
  | none => .ok methodName
  | some d =>
    if d.isEmpty then .ok methodName
    else
      let paramNames := extractFunctionParamNames targetText
      format methodName d paramNames args

/-- replacementMethod of the source together with the step body the reporter
runs: compute the description (propagating its errors before any step is
reported), capture the call-site location, then inside the reported step set
the step slot, run the wrapped function (whose behaviour is the `outcome`
argument), filter decorator frames from a thrown Error stack, and delete the
slot when the call finishes.  The returned pair is the observable outcome
(either the pre-step error, or the report together with the body result) and
the final instance state. -/
def runWrappedCall (className ctxName : JSStr) (description : Option JSStr)
    (targetText : JSStr) (args : List JSValue) (stack : Option JSStr)
    (stepInfo : TestStepInfo) (st : InstState) (outcome : Except Thrown JSValue) :
    Except StepError (StepReport × Except Thrown JSValue) × InstState :=
  match computeDescription className ctxName description targetText args with
  | .error e => (.error e, st)
  | .ok formattedDescription =>
    let location := captureCallSiteLocation stack
    let st1 : InstState := { st with stepSlot := some stepInfo }
    let bodyResult : Except Thrown JSValue :=
      match outcome with
      | .ok v => .ok v
      | .error t => .error (filterThrown t)
    let st2 : InstState := { st1 with stepSlot := none }
    (.ok (⟨formattedDescription, location⟩, bodyResult), st2)

/-- Modelled from the spec: the named-placeholder extraction the specification
claims, the matches of the pattern open-brace open-brace, a greedy run of
non-closing-brace characters, close-brace close-brace.  Greedy matching with
the mandatory two closing braces admits no backtracking, so a position matches
exactly when the maximal non-closing-brace run is followed by two closing
braces. -/
def specCurlyScan (s : JSStr) : List JSStr := specCurlyGo (s.length + 1) s
where
  /-- Scanning loop, with the same fuel discipline as curlyScanGo. -/
  specCurlyGo : Nat → JSStr → List JSStr
    | 0, _ => []
    | _ + 1, [] => []
    | _ + 1, [_] => []
    | fuel + 1, c1 :: c2 :: t =>
      if c1 = lbrace ∧ c2 = lbrace then
        match t.drop (t.takeWhile (fun c => c != rbrace)).length with
        | d1 :: d2 :: r2 =>
          if d1 = rbrace ∧ d2 = rbrace then
            (t.takeWhile (fun c => c != rbrace)) :: specCurlyGo fuel r2
          else specCurlyGo fuel (c2 :: t)
        | _ => specCurlyGo fuel (c2 :: t)
      else specCurlyGo fuel (c2 :: t)

/-- Modelled from the spec: the text between the first opening parenthesis of
the function text and its matching closing parenthesis, tracking parenthesis
depth; none when unbalanced. -/
def matchingParenInner (s : JSStr) : Option JSStr :=
  match afterFirst '(' s with
  | none => none
  | some rest => go rest 0 []
where
  /-- Depth-tracking scan: a closing parenthesis at depth zero ends the
  segment; nested parentheses adjust the depth. -/
  go : JSStr → Nat → JSStr → Option JSStr
    | [], _, _ => none
    | c :: t, depth, acc =>
      if c = ')' then
        if depth = 0 then some acc.reverse else go t (depth - 1) (c :: acc)
      else if c = '(' then go t (depth + 1) (c :: acc)
      else go t depth (c :: acc)

/-- Modelled from the spec: split on commas at parenthesis depth zero only. -/
def splitTopLevel (s : JSStr) : List JSStr :=
  go s 0 [] []
where
  /-- Accumulating scan; `cur` is the current piece reversed, `out` the
  finished pieces reversed. -/
  go : JSStr → Nat → JSStr → List JSStr → List JSStr
    | [], _, cur, out => (cur.reverse :: out).reverse
    | c :: t, depth, cur, out =>
      if c = ',' ∧ depth = 0 then go t depth [] (cur.reverse :: out)
      else if c = '(' then go t (depth + 1) (c :: cur) out
      else if c = ')' then go t (depth - 1) (c :: cur) out
      else go t depth (c :: cur) out

/-- Modelled from the spec: parameter-name extraction as the specification
words it, the substring between the first opening parenthesis and its
matching closing parenthesis, split on top-level commas, trimmed, empty
entries removed. -/
def specExtractParamNames (fnStr : JSStr) : List JSStr :=
  match matchingParenInner fnStr with
  | none => []
  | some inner => ((splitTopLevel inner).map jsTrim).filter (fun p => !p.isEmpty)

/-- Modelled from the spec: a stack line references the implementation file of
the wrapper when it mentions the decorator module file name in source or built
form, or its src or dist paths. -/
def referencesWrapperImplFile (line : JSStr) : Bool :=
  ["playwright-step-decorator.ts".toList,
   "playwright-step-decorator.js".toList,
   "/src/playwright-step-decorator".toList,
   "\\src\\playwright-step-decorator".toList,
   "/dist/playwright-step-decorator".toList,
   "\\dist\\playwright-step-decorator".toList].any (fun fragment => containsSub fragment line)

/-! Helper lemmas shared by the claim theorems. -/

instance exceptDecEq {ε α : Type} [DecidableEq ε] [DecidableEq α] :
    DecidableEq (Except ε α) := fun x y =>
  match x, y with
  | .ok a, .ok b => if h : a = b then isTrue (by rw [h]) else isFalse (by simp [h])
  | .error a, .error b => if h : a = b then isTrue (by rw [h]) else isFalse (by simp [h])
  | .ok _, .error _ => isFalse (by simp)
  | .error _, .ok _ => isFalse (by simp)

theorem isPrefixOf_append_self : ∀ (p r : JSStr), p.isPrefixOf (p ++ r) = true
  | [], _ => by simp [List.isPrefixOf]
  | c :: p', r => by simp [List.isPrefixOf, isPrefixOf_append_self p' r]

theorem indexOfSub_self_append (p r : JSStr) : indexOfSub p (p ++ r) = some 0 := by
  cases hp : p ++ r with
  | nil =>
    have : p = [] := by cases p <;> simp_all
    simp [indexOfSub, this]
  | cons c t =>
    rw [← hp]
    cases p with
    | nil => simp [indexOfSub, hp]
    | cons a p' => rw [hp, indexOfSub, if_pos]; rw [← hp]; exact isPrefixOf_append_self _ _

theorem indexOfSub_skip (c0 : Char) (p' r : JSStr) :
    ∀ a : JSStr, (∀ c ∈ a, c ≠ c0) →
      indexOfSub (c0 :: p') (a ++ r) = (indexOfSub (c0 :: p') r).map (· + a.length)
  | [], _ => by simp
  | x :: a', h => by
    have hx : (c0 == x) = false :=
      beq_eq_false_iff_ne.mpr (fun hh => (h x (List.mem_cons_self x a')) hh.symm)
    have ha : ∀ c ∈ a', c ≠ c0 := fun c hc => h c (List.mem_cons_of_mem _ hc)
    have hpre : (c0 :: p').isPrefixOf (x :: (a' ++ r)) = false := by
      simp [List.isPrefixOf, hx]
    rw [List.cons_append, indexOfSub, hpre]
    rw [indexOfSub_skip c0 p' r a' ha]
    cases indexOfSub (c0 :: p') r with
    | none => simp
    | some v => simp; omega

theorem getSubstitution_no_dollar (m b a : JSStr) :
    ∀ repl : JSStr, dollarChar ∉ repl → getSubstitution m b a repl = repl
  | [], _ => rfl
  | c :: rest, h => by
    have hc : ¬c = dollarChar := fun hh => h (hh ▸ List.mem_cons_self _ _)
    have hr : dollarChar ∉ rest := fun hh => h (List.mem_cons_of_mem _ hh)
    rw [getSubstitution.eq_def]
    dsimp only
    rw [if_neg hc, getSubstitution_no_dollar m b a rest hr]

theorem jsReplaceFirst_self_append (p r repl : JSStr) (h : dollarChar ∉ repl) :
    jsReplaceFirst (p ++ r) p repl = repl ++ r := by
  rw [jsReplaceFirst, indexOfSub_self_append]
  simp [getSubstitution_no_dollar _ _ _ repl h, List.drop_append_eq_append_drop]

theorem jsReplaceFirst_skip (c0 : Char) (p' r repl a : JSStr) (hd : dollarChar ∉ repl)
    (h : ∀ c ∈ a, c ≠ c0) :
    jsReplaceFirst (a ++ r) (c0 :: p') repl = a ++ jsReplaceFirst r (c0 :: p') repl := by
  rw [jsReplaceFirst, jsReplaceFirst, indexOfSub_skip c0 p' r a h]
  cases hi : indexOfSub (c0 :: p') r with
  | none => simp
  | some i =>
    have hm : Option.map (· + a.length) (some i) = some (i + a.length) := rfl
    rw [hm]
    dsimp only
    rw [getSubstitution_no_dollar _ _ _ repl hd, getSubstitution_no_dollar _ _ _ repl hd]
    have ht : (a ++ r).take (i + a.length) = a ++ r.take i := by
      rw [List.take_append_eq_append_take, List.take_of_length_le (by omega)]
      congr 2
      omega
    have hdp : (a ++ r).drop (i + a.length + (c0 :: p').length) =
        r.drop (i + (c0 :: p').length) := by
      rw [List.drop_append_eq_append_drop, List.drop_of_length_le (by omega)]
      rw [List.nil_append]
      congr 1
      omega
    rw [ht, hdp]
    simp

theorem containsSub_append_middle (p a b : JSStr) : containsSub p (a ++ (p ++ b)) = true := by
  induction a with
  | nil => simp [containsSub, indexOfSub_self_append]
  | cons x a' ih =>
    simp only [containsSub, List.cons_append, indexOfSub]
    split
    · rfl
    · simp only [containsSub] at ih
      cases h : indexOfSub p (a' ++ (p ++ b)) with
      | none => rw [h] at ih; simp at ih
      | some i => simp

theorem formatLoop_append (mn : JSStr) (pn : List JSStr) (args : List JSValue) :
    ∀ (A B : List JSStr) (r : JSStr),
      formatLoop mn pn args (A ++ B) r =
        match formatLoop mn pn args A r with
        | .ok r' => formatLoop mn pn args B r'
        | .error e => .error e
  | [], B, r => rfl
  | ph :: A', B, r => by
    rw [List.cons_append, formatLoop, formatLoop]
    cases resolveStep mn pn args ph with
    | error e => rfl
    | ok pr => exact formatLoop_append mn pn args A' B (jsReplaceFirst r pr.1 pr.2)

theorem splitOnChar_not_mem (c : Char) : ∀ s : JSStr, c ∉ s → splitOnChar c s = [s]
  | [], _ => rfl
  | x :: t, h => by
    have hx : ¬x = c := fun hh => h (hh ▸ List.mem_cons_self _ _)
    have ht : c ∉ t := fun hh => h (List.mem_cons_of_mem _ hh)
    rw [splitOnChar]
    simp only [hx, if_false, splitOnChar_not_mem c t ht]

theorem jsIndexOf_nonneg_mem (x : JSStr) :
    ∀ l : List JSStr, 0 ≤ jsIndexOf x l → x ∈ l
  | [], h => by simp [jsIndexOf] at h
  | y :: t, h => by
    by_cases hy : y = x
    · exact hy ▸ List.mem_cons_self y t
    · rw [jsIndexOf, if_neg hy] at h
      have hnn : 0 ≤ jsIndexOf x t := by
        by_cases hr : jsIndexOf x t < 0
        · simp [hr] at h
        · omega
      exact List.mem_cons_of_mem y (jsIndexOf_nonneg_mem x t hnn)


theorem jsArrGet_out_of_range (args : List JSValue) (i : Int) (h0 : 0 ≤ i)
    (hl : (args.length : Int) ≤ i) : jsArrGet args i = .undefined := by
  rw [jsArrGet, if_neg (by omega)]
  apply List.getD_eq_default
  omega

theorem findSome?_append_of_none {α β : Type} (f : α → Option β) :
    ∀ (A : List α) (B : List α), (∀ a ∈ A, f a = none) →
      (A ++ B).findSome? f = B.findSome? f
  | [], _, _ => rfl
  | x :: A', B, h => by
    rw [List.cons_append, List.findSome?_cons]
    rw [h x (List.mem_cons_self _ _)]
    exact findSome?_append_of_none f A' B (fun a ha => h a (List.mem_cons_of_mem _ ha))

theorem findSome?_eq_none_of_all {α β : Type} (f : α → Option β) :
    ∀ L : List α, (∀ a ∈ L, f a = none) → L.findSome? f = none
  | [], _ => rfl
  | x :: L', h => by
    rw [List.findSome?_cons, h x (List.mem_cons_self _ _)]
    exact findSome?_eq_none_of_all f L' (fun a ha => h a (List.mem_cons_of_mem _ ha))

theorem curlyScanGo_eq :
    ∀ (f g : Nat) (s : JSStr), s.length < f → s.length < g →
      curlyScanGo f s = curlyScanGo g s
  | f + 1, g + 1, [], _, _ => rfl
  | f + 1, g + 1, [_], _, _ => rfl
  | f + 1, g + 1, c1 :: c2 :: t, hf, hg => by
    simp only [List.length_cons] at hf hg
    simp only [curlyScanGo]
    split
    · cases hci : curlyInner t [] with
      | none =>
        exact curlyScanGo_eq f g (c2 :: t) (by simp; omega) (by simp; omega)
      | some p =>
        have hdl : (t.drop p.2).length ≤ t.length := by
          rw [List.length_drop]; omega
        exact congrArg (p.1 :: ·)
          (curlyScanGo_eq f g (t.drop p.2) (by omega) (by omega))
    · exact curlyScanGo_eq f g (c2 :: t) (by simp; omega) (by simp; omega)

theorem curlyScanGo_fuel (f : Nat) (s : JSStr) (h : s.length < f) :
    curlyScanGo f s = curlyScanAux s :=
  curlyScanGo_eq f (s.length + 1) s h (by omega)

theorem squareScanGo_eq :
    ∀ (f g : Nat) (s : JSStr), s.length < f → s.length < g →
      squareScanGo f s = squareScanGo g s
  | f + 1, g + 1, [], _, _ => rfl
  | f + 1, g + 1, [_], _, _ => rfl
  | f + 1, g + 1, c1 :: c2 :: t, hf, hg => by
    simp only [List.length_cons] at hf hg
    simp only [squareScanGo]
    split
    · cases hsq : squareAt t with
      | none =>
        exact squareScanGo_eq f g (c2 :: t) (by simp; omega) (by simp; omega)
      | some p =>
        have hdl : (t.drop p.2).length ≤ t.length := by
          rw [List.length_drop]; omega
        exact congrArg (p.1 :: ·)
          (squareScanGo_eq f g (t.drop p.2) (by omega) (by omega))
    · exact squareScanGo_eq f g (c2 :: t) (by simp; omega) (by simp; omega)

theorem squareScanGo_fuel (f : Nat) (s : JSStr) (h : s.length < f) :
    squareScanGo f s = squareScanAux s :=
  squareScanGo_eq f (s.length + 1) s h (by omega)

theorem containsSub_append_of_right (x a r : JSStr) (h : containsSub x r = true) :
    containsSub x (a ++ r) = true := by
  induction a with
  | nil => exact h
  | cons c a' ih =>
    rw [List.cons_append, containsSub, indexOfSub]
    split
    · rfl
    · rw [containsSub] at ih
      cases hidx : indexOfSub x (a' ++ r) with
      | none => rw [hidx] at ih; simp at ih
      | some i => simp

theorem containsSub_self_append (x b : JSStr) : containsSub x (x ++ b) = true := by
  rw [containsSub, indexOfSub_self_append]
  rfl

theorem sq_isPrefixOf_wrapSquare (ds : JSStr) : sqOpen.isPrefixOf (wrapSquare ds) = true := by
  simp [sqOpen, wrapSquare, List.isPrefixOf]

theorem sq_isSuffixOf_wrapSquare (ds : JSStr) : sqClose.isSuffixOf (wrapSquare ds) = true := by
  simp only [sqClose, wrapSquare, List.isSuffixOf, List.reverse_cons, List.reverse_append]
  simp [List.isPrefixOf]

theorem jsSlice2m2_wrapSquare (ds : JSStr) : jsSlice2m2 (wrapSquare ds) = ds := by
  rw [jsSlice2m2, wrapSquare]
  have hlen : ('[' :: '[' :: (ds ++ [']', ']'])).length - 2 = ds.length + 2 := by simp
  rw [hlen, List.take_succ_cons, List.take_succ_cons]
  rw [List.take_append_eq_append_take, List.take_length, Nat.sub_self, List.take_zero,
    List.append_nil]
  rfl

theorem resolveStep_wrapSquare_oob (mn : JSStr) (pn : List JSStr) (args : List JSValue)
    (ds : JSStr) (i : Int) (hpi : jsParseInt ds = some i) (hge : (args.length : Int) ≤ i) :
    resolveStep mn pn args (wrapSquare ds) = .error (.indexOutOfBounds (some i) args.length mn) := by
  rw [resolveStep,
    if_pos (by simp [sq_isPrefixOf_wrapSquare, sq_isSuffixOf_wrapSquare])]
  rw [jsSlice2m2_wrapSquare, hpi]
  dsimp only
  rw [if_pos (Or.inr hge)]

theorem afterFirst_not_mem_append (ch : Char) (r : JSStr) :
    ∀ a : JSStr, ch ∉ a → afterFirst ch (a ++ ch :: r) = some r
  | [], _ => by simp [afterFirst]
  | x :: a', h => by
    have hx : ¬x = ch := fun hh => h (hh ▸ List.mem_cons_self x a')
    rw [List.cons_append, afterFirst, if_neg hx]
    exact afterFirst_not_mem_append ch r a' (fun hh => h (List.mem_cons_of_mem _ hh))

theorem takeWhile_append_eq (p : Char → Bool) (y : Char) (c : JSStr) (hy : p y = false) :
    ∀ b : JSStr, (∀ x ∈ b, p x = true) → (b ++ y :: c).takeWhile p = b
  | [], _ => by simp [List.takeWhile_cons, hy]
  | x :: b', h => by
    rw [List.cons_append, List.takeWhile_cons, h x (List.mem_cons_self x b')]
    rw [takeWhile_append_eq p y c hy b' (fun z hz => h z (List.mem_cons_of_mem _ hz))]
    simp

theorem containsSub_cons (x : Char) (pat s : JSStr) :
    containsSub pat (x :: s) = (pat.isPrefixOf (x :: s) || containsSub pat s) := by
  rw [containsSub, indexOfSub]
  split
  · rename_i hp
    simp [hp]
  · rename_i hp
    rw [containsSub]
    cases indexOfSub pat s <;> simp [hp]

theorem curlyInner_sound :
    ∀ (t acc inner : JSStr) (n : Nat), curlyInner t acc = some (inner, n) →
      ∃ mid : JSStr,
        inner = acc.reverse ++ mid
        ∧ t = mid ++ rbrace :: rbrace :: t.drop n
        ∧ containsSub [rbrace, rbrace] mid = false
        ∧ mid.getLast? ≠ some rbrace
        ∧ ∀ c ∈ mid, isLineTerm c = false
  | [], acc, inner, n, h => by simp [curlyInner] at h
  | c :: rest, acc, inner, n, h => by
    rw [curlyInner.eq_def] at h
    dsimp only at h
    by_cases hc : c = rbrace
    · rw [if_pos hc] at h
      cases rest with
      | nil => simp at h
      | cons d rest2 =>
        dsimp only at h
        by_cases hd : d = rbrace
        · rw [if_pos hd] at h
          have hinj := Option.some.inj h
          have h1 : acc.reverse = inner := congrArg Prod.fst hinj
          have h2 : 2 = n := congrArg Prod.snd hinj
          refine ⟨[], by rw [← h1]; simp, ?_, by decide, by simp, by simp⟩
          subst hc
          subst hd
          rw [← h2]
          rfl
        · rw [if_neg hd] at h
          cases hci : curlyInner (d :: rest2) (c :: acc) with
          | none => rw [hci] at h; simp at h
          | some pr =>
            rw [hci] at h
            have hinj := Option.some.inj h
            have h1 : pr.1 = inner := congrArg Prod.fst hinj
            have h2 : pr.2 + 1 = n := congrArg Prod.snd hinj
            obtain ⟨mid', hmi, hteq, hsub, hlast, hterm⟩ :=
              curlyInner_sound (d :: rest2) (c :: acc) pr.1 pr.2 hci
            cases mid' with
            | nil =>
              exfalso
              exact hd (by simpa using congrArg List.head? hteq)
            | cons e mid2 =>
              have hde : d = e := by
                have := congrArg List.head? hteq
                simpa using this
              have hmid2ne : (e :: mid2) ≠ [] := by simp
              refine ⟨c :: e :: mid2, ?_, ?_, ?_, ?_, ?_⟩
              · rw [← h1, hmi]
                simp
              · rw [← h2]
                have hdrop : (c :: d :: rest2).drop (pr.2 + 1) = (d :: rest2).drop pr.2 :=
                  List.drop_succ_cons
                rw [hdrop]
                rw [List.cons_append]
                exact congrArg (c :: ·) hteq
              · rw [containsSub_cons]
                have hne : e ≠ rbrace := fun hh => hd (hde ▸ hh)
                have hpre : List.isPrefixOf [rbrace, rbrace] (c :: e :: mid2) = false := by
                  simp [List.isPrefixOf, beq_eq_false_iff_ne.mpr (Ne.symm hne)]
                rw [hpre, hsub]
                rfl
              · rw [List.getLast?_cons_cons]
                exact hlast
              · intro x hx
                cases List.mem_cons.mp hx with
                | inl hh => subst hh; subst hc; decide
                | inr hh => exact hterm x hh
    · rw [if_neg hc] at h
      by_cases hlt : isLineTerm c
      · rw [if_pos hlt] at h
        simp at h
      · rw [if_neg hlt] at h
        cases hci : curlyInner rest (c :: acc) with
        | none => rw [hci] at h; simp at h
        | some pr =>
          rw [hci] at h
          have hinj := Option.some.inj h
          have h1 : pr.1 = inner := congrArg Prod.fst hinj
          have h2 : pr.2 + 1 = n := congrArg Prod.snd hinj
          obtain ⟨mid', hmi, hteq, hsub, hlast, hterm⟩ :=
            curlyInner_sound rest (c :: acc) pr.1 pr.2 hci
          refine ⟨c :: mid', ?_, ?_, ?_, ?_, ?_⟩
          · rw [← h1, hmi]
            simp
          · rw [← h2]
            have hdrop : (c :: rest).drop (pr.2 + 1) = rest.drop pr.2 :=
              List.drop_succ_cons
            rw [hdrop, List.cons_append]
            exact congrArg (c :: ·) hteq
          · rw [containsSub_cons]
            have hpre : List.isPrefixOf [rbrace, rbrace] (c :: mid') = false := by
              simp [List.isPrefixOf, beq_eq_false_iff_ne.mpr (Ne.symm hc)]
            rw [hpre, hsub]
            rfl
          · cases mid' with
            | nil => simpa using hc
            | cons e mid2 =>
              rw [List.getLast?_cons_cons]
              exact hlast
          · intro x hx
            cases List.mem_cons.mp hx with
            | inl hh => subst hh; simpa using hlt
            | inr hh => exact hterm x hh

theorem containsSub_of_drop (q t : JSStr) (k : Nat)
    (h : containsSub q (t.drop k) = true) : containsSub q t = true :=
  (List.take_append_drop k t) ▸ containsSub_append_of_right q (t.take k) (t.drop k) h

theorem curlyScanGo_sound :
    ∀ (fuel : Nat) (s : JSStr), ∀ p ∈ curlyScanGo fuel s,
      containsSub [rbrace, rbrace] p = false
      ∧ p.getLast? ≠ some rbrace
      ∧ (∀ c ∈ p, isLineTerm c = false)
      ∧ containsSub (lbrace :: lbrace :: (p ++ [rbrace, rbrace])) s = true
  | 0, s => by simp [curlyScanGo]
  | _ + 1, [] => by simp [curlyScanGo]
  | _ + 1, [_] => by simp [curlyScanGo]
  | fuel + 1, c1 :: c2 :: t => by
    intro p hp
    rw [curlyScanGo] at hp
    by_cases hb : c1 = lbrace ∧ c2 = lbrace
    · rw [if_pos hb] at hp
      cases hci : curlyInner t [] with
      | none =>
        rw [hci] at hp
        obtain ⟨h1, h2, h3, h4⟩ := curlyScanGo_sound fuel (c2 :: t) p hp
        exact ⟨h1, h2, h3, containsSub_append_of_right _ [c1] _ h4⟩
      | some pr =>
        rw [hci] at hp
        cases List.mem_cons.mp hp with
        | inl heq =>
          obtain ⟨mid, hmi, hteq, hsub, hlast, hterm⟩ :=
            curlyInner_sound t [] pr.1 pr.2 hci
          rw [List.reverse_nil, List.nil_append] at hmi
          subst heq
          rw [hmi]
          refine ⟨hsub, hlast, hterm, ?_⟩
          have hs : c1 :: c2 :: t
              = (lbrace :: lbrace :: (mid ++ [rbrace, rbrace])) ++ t.drop pr.2 := by
            rw [hb.1, hb.2]
            simp only [List.cons_append, List.append_assoc, List.cons_append, List.nil_append]
            exact congrArg (lbrace :: lbrace :: ·) hteq
          rw [hs]
          exact containsSub_self_append _ _
        | inr hmem =>
          obtain ⟨h1, h2, h3, h4⟩ := curlyScanGo_sound fuel (t.drop pr.2) p hmem
          refine ⟨h1, h2, h3, ?_⟩
          exact containsSub_append_of_right _ [c1, c2] _ (containsSub_of_drop _ t pr.2 h4)
    · rw [if_neg hb] at hp
      obtain ⟨h1, h2, h3, h4⟩ := curlyScanGo_sound fuel (c2 :: t) p hp
      exact ⟨h1, h2, h3, containsSub_append_of_right _ [c1] _ h4⟩

theorem squareAt_sound (t ds : JSStr) (n : Nat) (h : squareAt t = some (ds, n)) :
    ds ≠ [] ∧ ds.all Char.isDigit = true ∧ t = ds ++ ']' :: ']' :: t.drop n := by
  rw [squareAt] at h
  by_cases he : (t.takeWhile Char.isDigit).isEmpty
  · rw [if_pos he] at h
    simp at h
  · rw [if_neg he] at h
    cases hdr : t.drop (t.takeWhile Char.isDigit).length with
    | nil => rw [hdr] at h; simp at h
    | cons c1 r1 =>
      cases r1 with
      | nil => rw [hdr] at h; simp at h
      | cons c2 r2 =>
        rw [hdr] at h
        dsimp only at h
        by_cases hbr : c1 = ']' ∧ c2 = ']'
        · rw [if_pos hbr] at h
          obtain ⟨hb1, hb2⟩ := hbr
          subst hb1
          subst hb2
          set tw := t.takeWhile Char.isDigit with htw
          have hinj := Option.some.inj h
          have h1 : tw = ds := congrArg Prod.fst hinj
          have h2 : tw.length + 2 = n := congrArg Prod.snd hinj
          have hpre := List.takeWhile_prefix (p := Char.isDigit) (l := t)
          rw [← htw] at hpre
          obtain ⟨u, hu⟩ := hpre
          have hdropu : t.drop tw.length = u := by
            have hdl := List.drop_left tw u
            rw [hu] at hdl
            exact hdl
          have hu2 : u = ']' :: ']' :: r2 := hdropu.symm.trans hdr
          refine ⟨?_, ?_, ?_⟩
          · rw [← h1]
            intro hh
            rw [hh] at he
            exact he rfl
          · rw [← h1, List.all_eq_true]
            intro x hx
            exact List.mem_takeWhile_imp (htw ▸ hx)
          · have hdn : t.drop n = r2 := by
              rw [← h2, ← hu]
              rw [List.drop_append_eq_append_drop]
              rw [List.drop_of_length_le (by omega), List.nil_append]
              have hsub2 : tw.length + 2 - tw.length = 2 := by omega
              rw [hsub2, hu2]
              rfl
            rw [← h1, hdn]
            conv_lhs => rw [← hu]
            rw [hu2]
        · rw [if_neg hbr] at h
          simp at h

theorem squareScanGo_sound :
    ∀ (fuel : Nat) (s : JSStr), ∀ d ∈ squareScanGo fuel s,
      d ≠ [] ∧ d.all Char.isDigit = true
      ∧ containsSub ('[' :: '[' :: (d ++ [']', ']'])) s = true
  | 0, s => by simp [squareScanGo]
  | _ + 1, [] => by simp [squareScanGo]
  | _ + 1, [_] => by simp [squareScanGo]
  | fuel + 1, c1 :: c2 :: t => by
    intro d hp
    rw [squareScanGo] at hp
    by_cases hb : c1 = '[' ∧ c2 = '['
    · rw [if_pos hb] at hp
      cases hsq : squareAt t with
      | none =>
        rw [hsq] at hp
        obtain ⟨h1, h2, h3⟩ := squareScanGo_sound fuel (c2 :: t) d hp
        exact ⟨h1, h2, containsSub_append_of_right _ [c1] _ h3⟩
      | some pr =>
        rw [hsq] at hp
        cases List.mem_cons.mp hp with
        | inl heq =>
          obtain ⟨h1, h2, hteq⟩ := squareAt_sound t pr.1 pr.2 hsq
          subst heq
          refine ⟨h1, h2, ?_⟩
          have hs : c1 :: c2 :: t
              = ('[' :: '[' :: (pr.1 ++ [']', ']'])) ++ t.drop pr.2 := by
            rw [hb.1, hb.2]
            simp only [List.cons_append, List.append_assoc, List.nil_append]
            exact congrArg ('[' :: '[' :: ·) hteq
          rw [hs]
          exact containsSub_self_append _ _
        | inr hmem =>
          obtain ⟨h1, h2, h3⟩ := squareScanGo_sound fuel (t.drop pr.2) d hmem
          refine ⟨h1, h2, ?_⟩
          exact containsSub_append_of_right _ [c1, c2] _ (containsSub_of_drop _ t pr.2 h3)
    · rw [if_neg hb] at hp
      obtain ⟨h1, h2, h3⟩ := squareScanGo_sound fuel (c2 :: t) d hp
      exact ⟨h1, h2, containsSub_append_of_right _ [c1] _ h3⟩

/-! Claim theorems. -/

/-- C1: for every invocation of a wrapped method whose description formatting
fails, the error is raised before the step reporter is invoked and before the
wrapped function runs, and propagates to the caller unmodified: whenever the
description computation fails with error e, the whole wrapped call returns
exactly that error, produces no step report, leaves the instance state
untouched, and does so for every possible behaviour of the wrapped function. -/
theorem c1_formatting_error_preempts_step
    (className ctxName targetText : JSStr) (description : Option JSStr)
    (args : List JSValue) (stack : Option JSStr) (stepInfo : TestStepInfo)
    (st : InstState) (outcome : Except Thrown JSValue) (e : StepError)
    (h : computeDescription className ctxName description targetText args = .error e) :
    runWrappedCall className ctxName description targetText args stack stepInfo st outcome
      = (.error e, st) := by
  rw [runWrappedCall.eq_def, h]

/-- C1 witness: a call whose template references positional index zero with no
arguments fails with the out-of-bounds error before the step runs. -/
theorem c1_witness :
    computeDescription "C".toList "m".toList (some "[[0]]".toList) "async (x) => 0".toList []
      = .error (.indexOutOfBounds (some 0) 0 "C.m".toList)
    ∧ runWrappedCall "C".toList "m".toList (some "[[0]]".toList) "async (x) => 0".toList []
        none ⟨7⟩ ⟨none⟩ (.ok (.num 1))
      = (.error (.indexOutOfBounds (some 0) 0 "C.m".toList), ⟨none⟩) :=
  ⟨by decide, c1_formatting_error_preempts_step _ _ _ _ _ _ _ _ _ _ (by decide)⟩

/-- C5: after any wrapped call that reaches the reported step finishes,
whether the wrapped function returned normally or threw, the step slot on the
instance is cleared, and a subsequent getStepInfo on that instance fails with
the no-active-step-context error. -/
theorem c5_step_slot_cleared
    (className ctxName targetText : JSStr) (description : Option JSStr)
    (args : List JSValue) (stack : Option JSStr) (stepInfo : TestStepInfo)
    (st : InstState) (outcome : Except Thrown JSValue) (report : StepReport)
    (bodyRes : Except Thrown JSValue) (st' : InstState)
    (h : runWrappedCall className ctxName description targetText args stack stepInfo st outcome
      = (.ok (report, bodyRes), st')) :
    st'.stepSlot = none ∧ getStepInfo st' = .error noStepContextMsg := by
  rw [runWrappedCall.eq_def] at h
  cases hcd : computeDescription className ctxName description targetText args with
  | error e => rw [hcd] at h; simp at h
  | ok fd =>
    rw [hcd] at h
    have hst : st' = ⟨none⟩ := (congrArg Prod.snd h).symm
    subst hst
    exact ⟨rfl, rfl⟩

/-- C5 witness: a parameterless wrapped call whose body throws still ends with
a cleared slot and a failing getStepInfo. -/
theorem c5_witness :
    (runWrappedCall "C".toList "m".toList none "async () => 0".toList [] none ⟨5⟩
        ⟨some ⟨9⟩⟩ (.error (.other .null))).2.stepSlot = none
    ∧ getStepInfo (runWrappedCall "C".toList "m".toList none "async () => 0".toList [] none ⟨5⟩
        ⟨some ⟨9⟩⟩ (.error (.other .null))).2 = .error noStepContextMsg :=
  c5_step_slot_cleared "C".toList "m".toList "async () => 0".toList none [] none ⟨5⟩
    ⟨some ⟨9⟩⟩ (.error (.other .null)) ⟨"C.m".toList, none⟩ (.error (.other .null)) _ rfl

/-- C3 counterexample: the claim says the missing-parameter message lists
every missing root identifier exactly once, deduplicated.  A template
mentioning the same unknown placeholder twice produces the missing list with
the identifier twice, and the message text contains it twice, comma
separated. -/
theorem c3_counterexample :
    format "C.m".toList "\x7b\x7bx\x7d\x7d \x7b\x7bx\x7d\x7d".toList [] []
      = .error (.missingParams ["x".toList, "x".toList] "C.m".toList)
    ∧ containsSub "x, x".toList
        (errorMessage (.missingParams ["x".toList, "x".toList] "C.m".toList)) = true :=
  ⟨by decide, by decide⟩

/-- C3 amended: when named placeholders have root identifiers absent from the
parameter names, format fails before any substitution with the
missing-parameter error, whose list contains every missing root identifier,
one entry per offending placeholder occurrence in placeholder order, with
repetitions rather than deduplicated. -/
theorem c3_missing_params_all_listed
    (mn desc : JSStr) (pn : List JSStr) (args : List JSValue)
    (h : findMissingParams (getPlaceholders desc) pn ≠ []) :
    format mn desc pn args
      = .error (.missingParams (findMissingParams (getPlaceholders desc) pn) mn)
    ∧ ∀ ph ∈ getPlaceholders desc, sqOpen.isPrefixOf ph = false →
        rootOf ph ∉ pn →
        rootOf ph ∈ findMissingParams (getPlaceholders desc) pn := by
  constructor
  · rw [format]
    rw [if_pos (List.length_pos.mpr h)]
  · intro ph hmem hpre hcon
    rw [findMissingParams]
    rw [List.mem_filter]
    refine ⟨List.mem_map.mpr ⟨ph, List.mem_filter.mpr ⟨hmem, by simp [hpre]⟩, rfl⟩, ?_⟩
    simpa using hcon

/-- C3 witness: a template with one unknown plain placeholder and one unknown
dotted placeholder fails with both roots listed. -/
theorem c3_witness :
    format "C.m".toList "\x7b\x7bx\x7d\x7d \x7b\x7by.z\x7d\x7d".toList ["a".toList] []
      = .error (.missingParams ["x".toList, "y".toList] "C.m".toList) :=
  (c3_missing_params_all_listed "C.m".toList "\x7b\x7bx\x7d\x7d \x7b\x7by.z\x7d\x7d".toList
    ["a".toList] [] (by decide)).1.trans (by decide)

/-- C10: a dotless named placeholder whose root identifier occurs in the
parameter-name list at a position at or beyond the argument-list length does
not make format fail: the placeholder text is replaced by the string form of
the absent value, the literal word undefined. -/
theorem c10_unsupplied_param_renders_undefined
    (mn desc : JSStr) (pn : List JSStr) (args : List JSValue) (ph : JSStr)
    (hph : getPlaceholders desc = [ph])
    (hsq : sqOpen.isPrefixOf ph = false)
    (hdot : '.' ∉ ph)
    (h0 : 0 ≤ jsIndexOf ph pn)
    (hlen : (args.length : Int) ≤ jsIndexOf ph pn) :
    format mn desc pn args = .ok (jsReplaceFirst desc (wrapCurly ph) "undefined".toList) := by
  have hsplit : splitOnChar '.' ph = [ph] := splitOnChar_not_mem '.' ph hdot
  have hroot : rootOf ph = ph := by rw [rootOf, hsplit]; rfl
  have hmissing : findMissingParams [ph] pn = [] := by
    rw [findMissingParams]
    simp [List.filter_cons, hsq, hroot]
    exact jsIndexOf_nonneg_mem ph pn h0
  have hresolve : resolveStep mn pn args ph = .ok (wrapCurly ph, "undefined".toList) := by
    rw [resolveStep]
    rw [if_neg (by simp [hsq])]
    rw [hsplit]
    simp only [List.headD_cons, List.drop_succ_cons, List.drop_nil]
    rw [jsArrGet_out_of_range args _ h0 hlen]
    rfl
  rw [format]
  rw [hph, hmissing]
  rw [if_neg (by simp)]
  rw [formatDescription, formatLoop, hresolve]
  rfl

/-- C10 witness: a template naming the second parameter while only one
argument is supplied formats to the word undefined. -/
theorem c10_witness :
    format "C.m".toList "\x7b\x7bb\x7d\x7d".toList ["a".toList, "b".toList] [.num 1]
      = .ok "undefined".toList :=
  (c10_unsupplied_param_renders_undefined "C.m".toList "\x7b\x7bb\x7d\x7d".toList
    ["a".toList, "b".toList] [.num 1] "b".toList
    (by decide) (by decide) (by decide) (by decide) (by decide)).trans (by decide)

/-- C2 counterexample: the claim quantifies over every out-of-bounds
positional placeholder.  With no arguments, the template of the first
conjunct contains the out-of-bounds placeholder of index one, yet the error
reports only index zero and its message nowhere mentions the digit one.  The
template of the third conjunct contains the out-of-bounds placeholder of
index five, yet format fails with the missing-property error of the earlier
named placeholder, not with an out-of-bounds error. -/
theorem c2_counterexample :
    format "C.m".toList "[[0]][[1]]".toList [] []
      = .error (.indexOutOfBounds (some 0) 0 "C.m".toList)
    ∧ containsSub "1".toList
        (errorMessage (.indexOutOfBounds (some 0) 0 "C.m".toList)) = false
    ∧ format "C.m".toList "\x7b\x7bu.x\x7d\x7d[[5]]".toList ["u".toList]
        [.obj [("name".toList, .str "Bob".toList)]]
      = .error (.missingProperty "u.x".toList "x".toList "u".toList "C.m".toList) :=
  ⟨by decide, by decide, by decide⟩

/-- C2 amended: when the placeholder list of the template has a positional
placeholder of index at or beyond the argument count, and every placeholder
before it substitutes without error (in particular every named placeholder
with an unknown root would already have stopped format), format fails with
the out-of-bounds error reporting that first offending index and the true
argument count, and its message text contains both numbers. -/
theorem c2_first_oob_reported
    (mn desc : JSStr) (pn : List JSStr) (args : List JSValue)
    (A B : List JSStr) (ds : JSStr) (i : Int) (r0 : JSStr)
    (hph : getPlaceholders desc = A ++ wrapSquare ds :: B)
    (hmp : findMissingParams (getPlaceholders desc) pn = [])
    (hA : formatLoop mn pn args A desc = .ok r0)
    (hpi : jsParseInt ds = some i)
    (hge : (args.length : Int) ≤ i) :
    format mn desc pn args = .error (.indexOutOfBounds (some i) args.length mn)
    ∧ containsSub (intStr i)
        (errorMessage (.indexOutOfBounds (some i) args.length mn)) = true
    ∧ containsSub (natStr args.length)
        (errorMessage (.indexOutOfBounds (some i) args.length mn)) = true := by
  refine ⟨?_, ?_, ?_⟩
  · rw [format, hmp]
    rw [if_neg (by simp)]
    rw [formatDescription, hph, formatLoop_append]
    rw [hA]
    dsimp only
    rw [formatLoop, resolveStep_wrapSquare_oob mn pn args ds i hpi hge]
  · have hmsg : errorMessage (.indexOutOfBounds (some i) args.length mn)
        = "Parameter index ".toList ++
          (quChar :: (intStr i ++ ([quChar] ++
          (" is out of bounds in method ".toList ++ (quoted mn ++
          (". This method received ".toList ++ (natStr args.length ++
          (" argument(s), but the @step decorator references index ".toList ++ (intStr i ++
          ". Please check your @step decorator placeholders.".toList))))))))) := by
      simp only [errorMessage, quoted, intOptStr, List.append_assoc, List.cons_append,
        List.nil_append]
    rw [hmsg]
    apply containsSub_append_of_right
    show containsSub (intStr i) ([quChar] ++ (intStr i ++ _)) = true
    apply containsSub_append_of_right
    exact containsSub_self_append _ _
  · have hmsg : errorMessage (.indexOutOfBounds (some i) args.length mn)
        = "Parameter index ".toList ++
          (quoted (intStr i) ++
          (" is out of bounds in method ".toList ++ (quoted mn ++
          (". This method received ".toList ++ (natStr args.length ++
          (" argument(s), but the @step decorator references index ".toList ++ (intStr i ++
          ". Please check your @step decorator placeholders.".toList))))))) := by
      simp only [errorMessage, intOptStr, List.append_assoc]
    rw [hmsg]
    apply containsSub_append_of_right
    apply containsSub_append_of_right
    apply containsSub_append_of_right
    apply containsSub_append_of_right
    apply containsSub_append_of_right
    exact containsSub_self_append _ _

/-- C2 witness: a template whose only placeholder is positional index three
with an empty argument list fails with the out-of-bounds error for index
three and count zero. -/
theorem c2_witness :
    format "C.m".toList "x[[3]]".toList [] []
      = .error (.indexOutOfBounds (some 3) 0 "C.m".toList) :=
  (c2_first_oob_reported "C.m".toList "x[[3]]".toList [] [] [] []
    "3".toList 3 "x[[3]]".toList (by decide) (by decide) (by decide) (by decide)
    (by decide)).1

/-- C7 counterexample: when the resolved value itself contains the
placeholder text, a later first-occurrence replacement hits the freshly
inserted copy instead of the remaining original occurrence, which survives
unsubstituted: the result keeps a literal placeholder and differs from the
claimed full substitution. -/
theorem c7_counterexample :
    format "C.m".toList "\x7b\x7ba\x7d\x7d and \x7b\x7ba\x7d\x7d".toList ["a".toList]
        [.str "x\x7b\x7ba\x7d\x7d".toList]
      = .ok "xx\x7b\x7ba\x7d\x7d and \x7b\x7ba\x7d\x7d".toList
    ∧ format "C.m".toList "\x7b\x7ba\x7d\x7d and \x7b\x7ba\x7d\x7d".toList ["a".toList]
        [.str "x\x7b\x7ba\x7d\x7d".toList]
      ≠ .ok "x\x7b\x7ba\x7d\x7d and x\x7b\x7ba\x7d\x7d".toList
    ∧ containsSub "\x7b\x7ba\x7d\x7d".toList
        "xx\x7b\x7ba\x7d\x7d and \x7b\x7ba\x7d\x7d".toList = true :=
  ⟨by decide, by decide, by decide⟩

/-- C7 amended: for a template in which the same literal named placeholder
appears exactly twice, one first-occurrence text replacement is performed per
extracted occurrence, and both occurrences end up substituted with the
resolved value provided the substitution does not reintroduce placeholder
text: whenever the inserted string contains no opening brace and no dollar
character, and the surrounding segments before the occurrences contain no
opening brace, the result is the template with both occurrences replaced. -/
theorem c7_duplicate_placeholder_both_substituted
    (mn desc pre mid post p s : JSStr) (pn : List JSStr) (args : List JSValue)
    (hdesc : desc = pre ++ (wrapCurly p ++ (mid ++ (wrapCurly p ++ post))))
    (hph : getPlaceholders desc = [p, p])
    (hres : resolveStep mn pn args p = .ok (wrapCurly p, s))
    (hpre : lbrace ∉ pre) (hmid : lbrace ∉ mid) (hs : lbrace ∉ s)
    (hd : dollarChar ∉ s) :
    formatDescription mn desc (getPlaceholders desc) pn args
      = .ok (pre ++ (s ++ (mid ++ (s ++ post)))) := by
  have hwc : wrapCurly p = lbrace :: (lbrace :: (p ++ [rbrace, rbrace])) := rfl
  have hnpre : ∀ c ∈ pre, c ≠ lbrace := fun c hc hh => hpre (hh ▸ hc)
  have hnmid : ∀ c ∈ mid, c ≠ lbrace := fun c hc hh => hmid (hh ▸ hc)
  have hns : ∀ c ∈ s, c ≠ lbrace := fun c hc hh => hs (hh ▸ hc)
  have h1 : jsReplaceFirst (pre ++ (wrapCurly p ++ (mid ++ (wrapCurly p ++ post))))
      (wrapCurly p) s = pre ++ (s ++ (mid ++ (wrapCurly p ++ post))) := by
    rw [hwc]
    rw [jsReplaceFirst_skip lbrace _ _ s pre hd hnpre]
    rw [jsReplaceFirst_self_append _ _ s hd]
  have h2 : jsReplaceFirst (pre ++ (s ++ (mid ++ (wrapCurly p ++ post))))
      (wrapCurly p) s = pre ++ (s ++ (mid ++ (s ++ post))) := by
    rw [hwc]
    rw [jsReplaceFirst_skip lbrace _ _ s pre hd hnpre]
    rw [jsReplaceFirst_skip lbrace _ _ s s hd hns]
    rw [jsReplaceFirst_skip lbrace _ _ s mid hd hnmid]
    rw [jsReplaceFirst_self_append _ _ s hd]
  rw [formatDescription, hph, formatLoop, hres]
  dsimp only
  rw [formatLoop, hres]
  dsimp only
  rw [formatLoop]
  rw [hdesc, h1, h2]

/-- C7 witness: a template using the same placeholder twice with a numeric
argument substitutes both occurrences. -/
theorem c7_witness :
    formatDescription "C.m".toList "Go \x7b\x7ba\x7d\x7d then \x7b\x7ba\x7d\x7d!".toList
        (getPlaceholders "Go \x7b\x7ba\x7d\x7d then \x7b\x7ba\x7d\x7d!".toList)
        ["a".toList] [.num 7]
      = .ok "Go 7 then 7!".toList :=
  (c7_duplicate_placeholder_both_substituted "C.m".toList
    "Go \x7b\x7ba\x7d\x7d then \x7b\x7ba\x7d\x7d!".toList
    "Go ".toList " then ".toList "!".toList "a".toList "7".toList ["a".toList] [.num 7]
    (by decide) (by decide) (by decide) (by decide) (by decide) (by decide)
    (by decide)).trans (by decide)

/-- C9 counterexample: the claim says the captured text runs to the matching
closing parenthesis and is split on top-level commas.  For a default value
containing a nested call, the source captures only up to the first closing
parenthesis and splits on every comma, unlike the spec-modelled
matching-parenthesis top-level-comma extraction. -/
theorem c9_counterexample :
    extractFunctionParamNames "function f(a = g(1,2), b) \x7b\x7d".toList
      = ["a = g(1".toList, "2".toList]
    ∧ specExtractParamNames "function f(a = g(1,2), b) \x7b\x7d".toList
      = ["a = g(1,2)".toList, "b".toList]
    ∧ ["a = g(1".toList, "2".toList] ≠ ["a = g(1,2)".toList, "b".toList] :=
  ⟨by decide, by decide, by decide⟩

/-- C9 amended: the extracted parameter-name list equals the substring of the
function text between the first opening parenthesis and the first closing
parenthesis after it (not the matching one), split on every comma (not only
top-level ones), with each entry trimmed and empty entries removed. -/
theorem c9_first_close_paren_split (a b c : JSStr) (ha : '(' ∉ a) (hb : ')' ∉ b) :
    extractFunctionParamNames (a ++ '(' :: (b ++ ')' :: c))
      = ((splitOnChar ',' b).map jsTrim).filter (fun p => !p.isEmpty) := by
  have h1 : afterFirst '(' (a ++ '(' :: (b ++ ')' :: c)) = some (b ++ ')' :: c) :=
    afterFirst_not_mem_append '(' _ a ha
  have h2 : (b ++ ')' :: c).contains ')' = true := by simp
  have h3 : (b ++ ')' :: c).takeWhile (fun ch => ch != ')') = b :=
    takeWhile_append_eq _ ')' c (by simp) b
      (fun x hx => by simp; exact fun hh => hb (hh ▸ hx))
  have hfp : firstParenInner (a ++ '(' :: (b ++ ')' :: c)) = some b := by
    rw [firstParenInner, h1]
    dsimp only
    rw [if_pos h2, h3]
  rw [extractFunctionParamNames, hfp]

/-- C9 witness: an ordinary two-parameter signature splits into the two
trimmed names. -/
theorem c9_witness :
    extractFunctionParamNames
        ("function f".toList ++ '(' :: (" x, y ".toList ++ ')' :: " => 0".toList))
      = ["x".toList, "y".toList] :=
  (c9_first_close_paren_split "function f".toList " x, y ".toList " => 0".toList
    (by decide) (by decide)).trans (by decide)

/-- C6 counterexample: the claim permits removal only of lines referencing
the wrapper implementation file.  A line whose path merely contains the bare
fragment, here a user directory named playwright-step-decorator-demo, does
not reference the implementation file yet is removed. -/
theorem c6_counterexample :
    filterDecoratorFrames
        "Error: x\n    at helper (/proj/playwright-step-decorator-demo/app.ts:7:3)".toList
      = "Error: x".toList
    ∧ referencesWrapperImplFile
        "    at helper (/proj/playwright-step-decorator-demo/app.ts:7:3)".toList = false :=
  ⟨by decide, by decide⟩

/-- C6 amended: when the wrapped function throws, the wrapper rethrows the
same error with identity tag, message, and Error-ness unchanged; the only
modification is removal of the stack lines containing the substring
playwright-step-decorator, which covers every reference to the wrapper
implementation file but can also remove lines naming other paths containing
that substring; errors without a truthy stack and non-Error thrown values
pass through untouched. -/
theorem c6_error_identity_preserved
    (className ctxName targetText : JSStr) (args : List JSValue) (stack : Option JSStr)
    (stepInfo : TestStepInfo) (st : InstState) (t : Thrown)
    (report : StepReport) (bodyRes : Except Thrown JSValue) (st' : InstState)
    (h : runWrappedCall className ctxName none targetText args stack stepInfo st (.error t)
      = (.ok (report, bodyRes), st')) :
    bodyRes = .error (filterThrown t)
    ∧ thrownMessage (filterThrown t) = thrownMessage t
    ∧ thrownTag (filterThrown t) = thrownTag t
    ∧ isErrorThrown (filterThrown t) = isErrorThrown t
    ∧ thrownStack (filterThrown t)
      = (thrownStack t).map (fun os => os.map (fun stk =>
          if stk.isEmpty then stk else filterDecoratorFrames stk)) := by
  have hrun : runWrappedCall className ctxName none targetText args stack stepInfo st (.error t)
      = (.ok (⟨defaultMethodName className ctxName, captureCallSiteLocation stack⟩,
          .error (filterThrown t)), ⟨none⟩) := rfl
  have hpair := hrun.symm.trans h
  have hfst : (Except.ok (⟨defaultMethodName className ctxName, captureCallSiteLocation stack⟩,
        (.error (filterThrown t) : Except Thrown JSValue))
        : Except StepError (StepReport × Except Thrown JSValue))
      = .ok (report, bodyRes) := congrArg Prod.fst hpair
  have hAB := Except.ok.inj hfst
  refine ⟨(congrArg Prod.snd hAB).symm, ?_, ?_, ?_, ?_⟩ <;>
    cases t with
    | other v => rfl
    | errObj m stk g =>
      cases stk with
      | none => rfl
      | some stk2 =>
        by_cases he : stk2.isEmpty
        · have hnil : stk2 = [] := List.isEmpty_iff.mp he
          subst hnil
          simp [filterThrown, thrownMessage, thrownTag, isErrorThrown, thrownStack]
        · have hnil : ¬stk2 = [] := fun hh => he (by simp [hh])
          simp [filterThrown, he, thrownMessage, thrownTag, isErrorThrown, thrownStack, hnil]

/-- C6 witness: a thrown Error whose stack mixes a decorator frame and a user
frame is rethrown with the same message while the decorator frame is removed
from the stack. -/
theorem c6_witness :
    (Except.error (.errObj "boom".toList (some "Error: boom\n    at t (/app/t.ts:1:1)".toList) 3)
        : Except Thrown JSValue)
      = .error (filterThrown (.errObj "boom".toList
          (some "Error: boom\n    at x (/lib/src/playwright-step-decorator.ts:61:1)\n    at t (/app/t.ts:1:1)".toList) 3))
    ∧ thrownMessage (filterThrown (.errObj "boom".toList
          (some "Error: boom\n    at x (/lib/src/playwright-step-decorator.ts:61:1)\n    at t (/app/t.ts:1:1)".toList) 3))
      = thrownMessage (.errObj "boom".toList
          (some "Error: boom\n    at x (/lib/src/playwright-step-decorator.ts:61:1)\n    at t (/app/t.ts:1:1)".toList) 3) :=
  have h := c6_error_identity_preserved "C".toList "m".toList "async () => 0".toList [] none
    ⟨1⟩ ⟨none⟩
    (.errObj "boom".toList
      (some "Error: boom\n    at x (/lib/src/playwright-step-decorator.ts:61:1)\n    at t (/app/t.ts:1:1)".toList) 3)
    ⟨"C.m".toList, none⟩
    (.error (.errObj "boom".toList (some "Error: boom\n    at t (/app/t.ts:1:1)".toList) 3))
    ⟨none⟩ rfl
  ⟨h.1, h.2.1⟩

/-- C4: the call-site locator skips the three leading frames of its own call
chain and returns the file, line, and column of the first subsequent line
that parses as a location and whose file contains none of the ignored
fragments; lines that fail to parse or whose file is ignored are passed over,
and when every remaining line fails the result is absent rather than an
error. -/
theorem c4_first_valid_frame_or_absent (st : JSStr) (A : List JSStr) (l : JSStr)
    (B : List JSStr) (loc : SourceLocation) :
    (((splitOnChar nlChar st).drop 3 = A ++ l :: B
        ∧ (∀ l2 ∈ A, frameLocation l2 = none)
        ∧ frameLocation l = some loc)
      → captureCallSiteLocation (some st) = some loc)
    ∧ ((∀ l2 ∈ (splitOnChar nlChar st).drop 3, frameLocation l2 = none)
      → captureCallSiteLocation (some st) = none) := by
  constructor
  · rintro ⟨hsplit, hA, hl⟩
    show ((splitOnChar nlChar st).drop 3).findSome? frameLocation = some loc
    rw [hsplit, findSome?_append_of_none frameLocation A (l :: B) hA]
    rw [List.findSome?_cons, hl]
  · intro hall
    show ((splitOnChar nlChar st).drop 3).findSome? frameLocation = none
    exact findSome?_eq_none_of_all frameLocation _ hall

/-- C4 witness: a trace whose three leading frames are the capture chain,
followed by an ignored dependency frame and an unparseable line, yields the
location of the next user frame; a trace whose candidate frames are all
ignored or unparseable yields absence. -/
theorem c4_witness :
    captureCallSiteLocation (some
        "Error\n    at captureCallSiteLocation (/lib/src/playwright-step-decorator.ts:110:17)\n    at replacementMethod (/lib/src/playwright-step-decorator.ts:59:22)\n    at foo (/app/node_modules/pkg/x.ts:1:2)\ngarbage line\n    at myTest (/app/tests/example.spec.ts:42:7)".toList)
      = some ⟨"/app/tests/example.spec.ts".toList, 42, 7⟩
    ∧ captureCallSiteLocation (some
        "Error\nA\nB\n    at foo (/app/node_modules/pkg/x.ts:1:2)\n    at bar (node:internal/modules/run:3:4)".toList)
      = none :=
  ⟨(c4_first_valid_frame_or_absent
      "Error\n    at captureCallSiteLocation (/lib/src/playwright-step-decorator.ts:110:17)\n    at replacementMethod (/lib/src/playwright-step-decorator.ts:59:22)\n    at foo (/app/node_modules/pkg/x.ts:1:2)\ngarbage line\n    at myTest (/app/tests/example.spec.ts:42:7)".toList
      ["    at foo (/app/node_modules/pkg/x.ts:1:2)".toList, "garbage line".toList]
      "    at myTest (/app/tests/example.spec.ts:42:7)".toList
      [] ⟨"/app/tests/example.spec.ts".toList, 42, 7⟩).1
      ⟨by decide, by decide, by decide⟩,
   (c4_first_valid_frame_or_absent
      "Error\nA\nB\n    at foo (/app/node_modules/pkg/x.ts:1:2)\n    at bar (node:internal/modules/run:3:4)".toList
      [] [] [] ⟨[], 0, 0⟩).2 (by decide)⟩

/-- C8 counterexample: the claim describes named extraction as the matches of
the greedy non-closing-brace pattern.  The source uses the lazy any-character
pattern instead: the two differ both ways.  On a template with a lone closing
brace inside, the source extracts an inner text containing a closing brace
while the spec-modelled pattern matches nothing; on a template with a line
feed inside, the source extracts nothing (the lazy dot does not cross line
terminators) while the spec-modelled pattern extracts the inner text. -/
theorem c8_counterexample :
    curlyScanAux "\x7b\x7ba\x7db\x7d\x7d".toList = ["a\x7db".toList]
    ∧ rbrace ∈ "a\x7db".toList
    ∧ specCurlyScan "\x7b\x7ba\x7db\x7d\x7d".toList = []
    ∧ curlyScanAux "\x7b\x7ba\nb\x7d\x7d".toList = []
    ∧ specCurlyScan "\x7b\x7ba\nb\x7d\x7d".toList = ["a\nb".toList] :=
  ⟨by decide, by decide, by decide, by decide, by decide⟩

/-- C8 amended: every named placeholder inner text extracted by the source is
a lazy match, whose inner text never contains two adjacent closing braces,
never ends with a closing brace, contains no line terminator, but may contain
isolated closing braces, and whose wrapped literal occurs in the template;
every positional placeholder is a nonempty all-digit string whose wrapped
literal occurs in the template (the positional pattern of the source is
exactly the double-bracket digits regex of the claim); there is no nesting
and no escaping. -/
theorem c8_extraction_syntax (desc : JSStr) :
    (∀ p ∈ curlyScanAux desc,
        containsSub [rbrace, rbrace] p = false
        ∧ p.getLast? ≠ some rbrace
        ∧ (∀ c ∈ p, isLineTerm c = false)
        ∧ containsSub (wrapCurly p) desc = true)
    ∧ (∀ d ∈ squareScanAux desc,
        d ≠ [] ∧ d.all Char.isDigit = true
        ∧ containsSub (wrapSquare d) desc = true) := by
  constructor
  · intro p hp
    exact curlyScanGo_sound (desc.length + 1) desc p hp
  · intro d hd
    exact squareScanGo_sound (desc.length + 1) desc d hd

/-- C8 witness: extraction on a template with one named and one positional
placeholder satisfies the syntactic characterisation. -/
theorem c8_witness :
    containsSub [rbrace, rbrace] "u.name".toList = false
    ∧ containsSub (wrapCurly "u.name".toList)
        "\x7b\x7bu.name\x7d\x7d [[0]]".toList = true
    ∧ "0".toList ≠ []
    ∧ containsSub (wrapSquare "0".toList)
        "\x7b\x7bu.name\x7d\x7d [[0]]".toList = true :=
  have h := c8_extraction_syntax "\x7b\x7bu.name\x7d\x7d [[0]]".toList
  have hc := h.1 "u.name".toList (by decide)
  have hs := h.2 "0".toList (by decide)
  ⟨hc.1, hc.2.2.2, hs.1, hs.2.2⟩

end StepDecorator
